import Mathlib

/-!
# Text moderation: explicit-term filter and sentiment threshold

A shallow embedding of `moderation.go` (package `textmoderation`).

* Go strings are byte sequences (`GoString`), not necessarily valid UTF-8.
* The package variable `explicitTerms` is carried in an explicit `State`.
* The remote endpoint behind `svc.DetectSentiment` is a step function on a
  remote state; every request sent is appended to a log in `World`, so that
  "the adapter was not invoked" is the statement that the world is unchanged.
* A nil-pointer dereference is the outcome `Outcome.panicked`.
* `float64` values are their IEEE-754 binary64 bit patterns.
-/

namespace TextModeration

/-! ## Go strings and the `strings` / `unicode/utf8` functions the package calls -/

/-- A Go string: an immutable sequence of bytes, each in the range 0..255. -/
abbrev GoString := List Nat

/-- The rune `utf8.RuneError` (U+FFFD). -/
def RuneError : Nat := 0xFFFD

/-- The function `utf8.AppendRune` on an empty buffer: the UTF-8 encoding of a rune.
Surrogates and values above `utf8.MaxRune` are encoded as `RuneError`. -/
def AppendRune (r : Nat) : GoString :=
  if r ≤ 0x7F then [r]
  else if r ≤ 0x7FF then [0xC0 + r / 64, 0x80 + r % 64]
  else if 0x10FFFF < r ∨ (0xD800 ≤ r ∧ r ≤ 0xDFFF) then
    [0xE0 + RuneError / 4096, 0x80 + RuneError / 64 % 64, 0x80 + RuneError % 64]
  else if r ≤ 0xFFFF then [0xE0 + r / 4096, 0x80 + r / 64 % 64, 0x80 + r % 64]
  else [0xF0 + r / 262144, 0x80 + r / 4096 % 64, 0x80 + r / 64 % 64, 0x80 + r % 64]

/-- A Go string literal of the source file: the UTF-8 bytes of its characters. -/
def lit (s : String) : GoString :=
  s.toList.flatMap (fun c => AppendRune c.toNat)

/-- A continuation byte: `locb ≤ b ≤ hicb`. -/
def isCont (b : Nat) : Bool := 0x80 ≤ b && b ≤ 0xBF

/-- The function `utf8.DecodeRuneInString`: the first rune of `s` and its width in bytes.
An invalid or truncated encoding yields `(RuneError, 1)`; the empty string `(RuneError, 0)`. -/
def DecodeRuneInString (s : GoString) : Nat × Nat :=
  match s with
  | [] => (RuneError, 0)
  | s0 :: t =>
    if s0 < 0x80 then (s0, 1)
    else if 0xC2 ≤ s0 ∧ s0 ≤ 0xDF then
      match t with
      | s1 :: _ => if isCont s1 then (s0 % 32 * 64 + s1 % 64, 2) else (RuneError, 1)
      | _ => (RuneError, 1)
    else if 0xE0 ≤ s0 ∧ s0 ≤ 0xEF then
      match t with
      | s1 :: s2 :: _ =>
        let lo := if s0 = 0xE0 then 0xA0 else 0x80
        let hi := if s0 = 0xED then 0x9F else 0xBF
        if lo ≤ s1 ∧ s1 ≤ hi ∧ isCont s2 then
          (s0 % 16 * 4096 + s1 % 64 * 64 + s2 % 64, 3)
        else (RuneError, 1)
      | _ => (RuneError, 1)
    else if 0xF0 ≤ s0 ∧ s0 ≤ 0xF4 then
      match t with
      | s1 :: s2 :: s3 :: _ =>
        let lo := if s0 = 0xF0 then 0x90 else 0x80
        let hi := if s0 = 0xF4 then 0x8F else 0xBF
        if lo ≤ s1 ∧ s1 ≤ hi ∧ isCont s2 ∧ isCont s3 then
          (s0 % 8 * 262144 + s1 % 64 * 4096 + s2 % 64 * 64 + s3 % 64, 4)
        else (RuneError, 1)
      | _ => (RuneError, 1)
    else (RuneError, 1)

/-- The function `strings.Map` for a mapping that never returns a negative rune:
every rune of `s` (as `for _, c := range s` decodes it) is replaced by the
encoding of its image. The first argument counts the bytes of the current rune
that are still to be skipped. -/
def mapFrom (mapping : Nat → Nat) : Nat → GoString → GoString
  | _, [] => []
  | skip + 1, _ :: t => mapFrom mapping skip t
  | 0, s0 :: t =>
    AppendRune (mapping (DecodeRuneInString (s0 :: t)).1)
      ++ mapFrom mapping ((DecodeRuneInString (s0 :: t)).2 - 1) t

/-- The function `strings.Map`. -/
def Map (mapping : Nat → Nat) (s : GoString) : GoString :=
  mapFrom mapping 0 s

/-- An ASCII upper-case letter: `'A' <= c && c <= 'Z'`. -/
def isUpperASCII (c : Nat) : Bool := 0x41 ≤ c && c ≤ 0x5A

/-- The function `unicode.ToLower`. For a rune above `unicode.MaxASCII` the result comes
from the Unicode case tables of the Go distribution, `unicode.To(unicode.LowerCase, r)`,
which are the parameter `caseTable`. -/
def unicodeToLower (caseTable : Nat → Nat) (r : Nat) : Nat :=
  if r ≤ 0x7F then
    if isUpperASCII r then r + 32 else r
  else caseTable r

/-- The function `strings.ToLower`: the byte-wise loop for an ASCII-only string,
otherwise `Map(unicode.ToLower, s)`. -/
def ToLower (caseTable : Nat → Nat) (s : GoString) : GoString :=
  let isASCII := s.all (fun c => c < 0x80)
  let hasUpper := s.any isUpperASCII
  if isASCII then
    if !hasUpper then s
    else s.map (fun c => if isUpperASCII c then c + 32 else c)
  else Map (unicodeToLower caseTable) s

/-- The search of `strings.Index` from offset `i`: the first offset at which `substr`
occurs, or `-1`. -/
def indexFrom (substr : GoString) : Nat → GoString → Int
  | i, [] => if substr.isEmpty then (i : Int) else -1
  | i, a :: t => if substr.isPrefixOf (a :: t) then (i : Int) else indexFrom substr (i + 1) t

/-- The function `strings.Index`. -/
def Index (s substr : GoString) : Int := indexFrom substr 0 s

/-- The function `strings.Contains`: `Index(s, substr) >= 0`. -/
def Contains (s substr : GoString) : Bool := decide (0 ≤ Index s substr)

/-! ## The explicit-term filter -/

/-- The package-level state: `var explicitTerms = []string{}`. -/
structure State where
  explicitTerms : List GoString
  deriving DecidableEq, Repr

/-- The state at program start. -/
def State.init : State := { explicitTerms := [] }

/-- The Go function `AddExplicitTerm`: `explicitTerms = append(explicitTerms, term)`. -/
def AddExplicitTerm (term : GoString) (st : State) : State :=
  { explicitTerms := st.explicitTerms ++ [term] }

/-- The Go function `AddExplicitTerms`: `explicitTerms = append(explicitTerms, terms...)`. -/
def AddExplicitTerms (terms : List GoString) (st : State) : State :=
  { explicitTerms := st.explicitTerms ++ terms }

/-- The loop `for _, term := range explicitTerms` of `CheckForExplicitContent`,
with its early `return true`. -/
def checkLoop (textLower : GoString) : List GoString → Bool
  | [] => false
  | term :: rest => if Contains textLower term then true else checkLoop textLower rest

/-- The Go function `CheckForExplicitContent`. -/
def CheckForExplicitContent (caseTable : Nat → Nat) (st : State) (text : GoString) : Bool :=
  let textLower := ToLower caseTable text
  checkLoop textLower st.explicitTerms

/-! ## float64 -/

/-- A Go `float64`: its IEEE-754 binary64 bit pattern, a number below `2 ^ 64`
(sign bit, 11 exponent bits, 52 fraction bits). -/
abbrev Float64 := Nat

/-- The biased exponent field. -/
def f64Exp (x : Float64) : Nat := x / 2 ^ 52 % 2 ^ 11

/-- The fraction field. -/
def f64Frac (x : Float64) : Nat := x % 2 ^ 52

/-- Not-a-number: exponent field all ones, fraction non-zero. -/
def f64IsNaN (x : Float64) : Bool := f64Exp x == 2047 && f64Frac x != 0

/-- The value of a non-NaN `x` multiplied by `2 ^ 1074`, an integer: a subnormal is
`frac * 2 ^ (-1074)`, a normal number `(2 ^ 52 + frac) * 2 ^ (exp - 1075)`. The same
formula places the infinities beyond every finite value, and both zeros at `0`. -/
def f64Scaled (x : Float64) : Int :=
  let mag : Nat := if f64Exp x = 0 then f64Frac x else (2 ^ 52 + f64Frac x) * 2 ^ (f64Exp x - 1)
  if x / 2 ^ 63 % 2 = 1 then -(mag : Int) else (mag : Int)

/-- The Go comparison `a > b` on `float64`: false when either side is NaN,
otherwise the comparison of the values. -/
def f64Gt (a b : Float64) : Bool :=
  !f64IsNaN a && !f64IsNaN b && decide (f64Scaled b < f64Scaled a)

/-- The constant `0.7` of `ModerateText` converted to `float64`: the nearest binary64
value, `6305039478318694 / 2 ^ 53`. -/
def threshold : Float64 := 0x3FE6666666666666

/-! ## The remote sentiment endpoint -/

/-- The outcome of a Go call: it returns its results, or a run-time panic unwinds it. -/
inductive Outcome (α : Type) where
  | returned (v : α)
  | panicked
  deriving DecidableEq, Repr

/-- The type `comprehend.DetectSentimentInput` (the fields the package sets). -/
structure DetectSentimentInput where
  LanguageCode : Option GoString
  Text : Option GoString
  deriving DecidableEq, Repr

/-- The type `comprehend.SentimentScore`: four `*float64` fields. -/
structure SentimentScore where
  Mixed : Option Float64
  Negative : Option Float64
  Neutral : Option Float64
  Positive : Option Float64
  deriving DecidableEq, Repr

/-- The type `comprehend.DetectSentimentOutput`: `Sentiment *string` and
`SentimentScore *SentimentScore`. -/
structure DetectSentimentOutput where
  Sentiment : Option GoString
  SentimentScore : Option SentimentScore
  deriving DecidableEq, Repr

/-- What `svc.DetectSentiment` hands back: `(*DetectSentimentOutput, error)`. -/
abbrev Response (ε : Type) := Option DetectSentimentOutput × Option ε

/-- A ready client handle `svc *comprehend.Comprehend`. The endpoint behind it is a
step function on a remote state `σ`; `ε` is the type of Go `error` values. -/
structure Comprehend (σ ε : Type) where
  DetectSentiment : DetectSentimentInput → σ → Response ε × σ

/-- Everything outside the process: the remote state and the log of the requests
sent to the endpoint so far. -/
structure World (σ : Type) where
  remote : σ
  requests : List DetectSentimentInput

/-- One call `svc.DetectSentiment(input)`: the request is logged and the remote
state advances. -/
def Comprehend.call {σ ε : Type} (svc : Comprehend σ ε) (input : DetectSentimentInput)
    (w : World σ) : Response ε × World σ :=
  ((svc.DetectSentiment input w.remote).1,
    { remote := (svc.DetectSentiment input w.remote).2, requests := w.requests ++ [input] })

/-- The request built by `AnalyzeSentiment`:
`&comprehend.DetectSentimentInput{Text: aws.String(text), LanguageCode: aws.String("en")}`. -/
def sentimentInput (text : GoString) : DetectSentimentInput :=
  { Text := some text, LanguageCode := some (lit "en") }

/-- The Go function `AnalyzeSentiment`. The dereferences `*result.Sentiment` and
`*result.SentimentScore.Negative` panic on a nil pointer. -/
def AnalyzeSentiment {σ ε : Type} (svc : Comprehend σ ε) (text : GoString) (w : World σ) :
    Outcome (GoString × Float64 × Option ε) × World σ :=
  let input := sentimentInput text
  let r := svc.call input w
  match r.1.2 with
  | some err => (Outcome.returned ([], 0, some err), r.2)
  | none =>
    match r.1.1 with
    | none => (Outcome.panicked, r.2)
    | some result =>
      match result.Sentiment with
      | none => (Outcome.panicked, r.2)
      | some sentiment =>
        match result.SentimentScore with
        | none => (Outcome.panicked, r.2)
        | some score =>
          match score.Negative with
          | none => (Outcome.panicked, r.2)
          | some negativeScore => (Outcome.returned (sentiment, negativeScore, none), r.2)

/-- The Go function `ModerateText`. -/
def ModerateText {σ ε : Type} (caseTable : Nat → Nat) (svc : Comprehend σ ε) (st : State)
    (text : GoString) (w : World σ) : Outcome (GoString × Option ε) × World σ :=
  if CheckForExplicitContent caseTable st text then
    (Outcome.returned (lit "flagged-explicit", none), w)
  else
    match AnalyzeSentiment svc text w with
    | (Outcome.panicked, w1) => (Outcome.panicked, w1)
    | (Outcome.returned (_, _, some err), w1) => (Outcome.returned ([], some err), w1)
    | (Outcome.returned (sentiment, negativeScore, none), w1) =>
      if sentiment = lit "NEGATIVE" ∧ f64Gt negativeScore threshold = true then
        (Outcome.returned (lit "flagged-negative", none), w1)
      else
        (Outcome.returned (lit "approved", none), w1)

/-! ## Sequences of calls to the two add operations -/

/-- One call to an add operation of the package. -/
inductive AddCall where
  | term (t : GoString)
  | terms (ts : List GoString)
  deriving DecidableEq, Repr

/-- The state after one add call. -/
def AddCall.run (c : AddCall) (st : State) : State :=
  match c with
  | AddCall.term t => AddExplicitTerm t st
  | AddCall.terms ts => AddExplicitTerms ts st

/-- The state after a sequence of add calls, first to last. -/
def runAdds (cs : List AddCall) (st : State) : State :=
  cs.foldl (fun s c => c.run s) st

/-- Repeated `AddExplicitTerm`, one call per element, in order (the wording of the
specification for `addTerms`). -/
def addTermRepeated (terms : List GoString) (st : State) : State :=
  terms.foldl (fun s t => AddExplicitTerm t s) st

/-! ## Vocabulary of the statements -/

/-- The string `term` occurs in `s` as a contiguous run of bytes. -/
def Occurs (term s : GoString) : Prop := ∃ pre post, s = pre ++ term ++ post

/-- The case tables never send a rune above `unicode.MaxASCII` to an ASCII
upper-case letter. -/
def TableAvoidsUpper (caseTable : Nat → Nat) : Prop :=
  ∀ r, 0x7F < r → isUpperASCII (caseTable r) = false

/-- A response with every field present. -/
def fullResponse (label : GoString) (negative : Float64) : Response GoString :=
  (some { Sentiment := some label,
          SentimentScore := some { Mixed := some 0, Negative := some negative,
                                   Neutral := some 0, Positive := some 0 } }, none)

/-- A client whose endpoint gives the same response to every request and counts the
requests in its state. -/
def fixedSvc (r : Response GoString) : Comprehend Nat GoString :=
  { DetectSentiment := fun _ n => (r, n + 1) }

/-- The world before any request. -/
def World.start : World Nat := { remote := 0, requests := [] }

/-! ## Lemmas on the string functions -/

theorem indexFrom_nonneg_iff (substr : GoString) (s : GoString) (i : Nat) :
    0 ≤ indexFrom substr i s ↔ substr <:+: s := by
  induction s generalizing i with
  | nil =>
    cases substr with
    | nil => simp [indexFrom]
    | cons b p => simp [indexFrom]
  | cons a t ih =>
    unfold indexFrom
    by_cases h : substr.isPrefixOf (a :: t) = true
    · rw [if_pos h]
      have hp : substr <+: a :: t := List.isPrefixOf_iff_prefix.mp h
      exact ⟨fun _ => hp.isInfix, fun _ => Int.ofNat_nonneg i⟩
    · rw [if_neg h, ih (i + 1), List.infix_cons_iff]
      constructor
      · intro h1
        exact Or.inr h1
      · intro h1
        rcases h1 with h1 | h1
        · exact absurd (List.isPrefixOf_iff_prefix.mpr h1) h
        · exact h1

/-- The function `Contains` decides contiguous occurrence. -/
theorem Contains_iff (s substr : GoString) :
    Contains s substr = true ↔ ∃ pre post, s = pre ++ substr ++ post := by
  unfold Contains Index
  rw [decide_eq_true_iff, indexFrom_nonneg_iff]
  constructor
  · rintro ⟨pre, post, h⟩
    exact ⟨pre, post, h.symm⟩
  · rintro ⟨pre, post, h⟩
    exact ⟨pre, post, h.symm⟩

theorem Contains_empty (s : GoString) : Contains s [] = true :=
  (Contains_iff s []).mpr ⟨[], s, rfl⟩

/-- The loop of the filter returns true exactly when some listed term occurs. -/
theorem checkLoop_iff (textLower : GoString) (terms : List GoString) :
    checkLoop textLower terms = true ↔ ∃ term ∈ terms, Contains textLower term = true := by
  induction terms with
  | nil => simp [checkLoop]
  | cons t rest ih =>
    unfold checkLoop
    by_cases h : Contains textLower t = true
    · rw [if_pos h]
      exact ⟨fun _ => ⟨t, List.mem_cons_self t rest, h⟩, fun _ => rfl⟩
    · rw [if_neg h, ih]
      constructor
      · rintro ⟨u, hu, hc⟩
        exact ⟨u, List.mem_cons_of_mem t hu, hc⟩
      · rintro ⟨u, hu, hc⟩
        rcases List.mem_cons.mp hu with rfl | hu
        · exact absurd hc h
        · exact ⟨u, hu, hc⟩

/-- The filter in terms of the term list and the lowered text. -/
theorem check_iff (caseTable : Nat → Nat) (st : State) (text : GoString) :
    CheckForExplicitContent caseTable st text = true ↔
      ∃ term ∈ st.explicitTerms, Occurs term (ToLower caseTable text) := by
  unfold CheckForExplicitContent Occurs
  simp only [checkLoop_iff, Contains_iff]

/-- Two term lists with the same members give the same filter result. -/
theorem check_congr (caseTable : Nat → Nat) (s1 s2 : State) (text : GoString)
    (h : ∀ t, t ∈ s1.explicitTerms ↔ t ∈ s2.explicitTerms) :
    CheckForExplicitContent caseTable s1 text = CheckForExplicitContent caseTable s2 text := by
  rw [Bool.eq_iff_iff, check_iff, check_iff]
  constructor
  · rintro ⟨t, ht, hc⟩
    exact ⟨t, (h t).mp ht, hc⟩
  · rintro ⟨t, ht, hc⟩
    exact ⟨t, (h t).mpr ht, hc⟩

/-- The orchestrator reads the term list only through the filter. -/
theorem moderate_congr {σ ε : Type} (caseTable : Nat → Nat) (svc : Comprehend σ ε)
    (s1 s2 : State) (text : GoString) (w : World σ)
    (h : CheckForExplicitContent caseTable s1 text = CheckForExplicitContent caseTable s2 text) :
    ModerateText caseTable svc s1 text w = ModerateText caseTable svc s2 text w := by
  unfold ModerateText
  rw [h]

/-- When the filter matches, the orchestrator returns at once and leaves the world alone. -/
theorem moderate_of_check {σ ε : Type} (caseTable : Nat → Nat) (svc : Comprehend σ ε)
    (st : State) (text : GoString) (w : World σ)
    (h : CheckForExplicitContent caseTable st text = true) :
    ModerateText caseTable svc st text w
      = (Outcome.returned (lit "flagged-explicit", none), w) := by
  unfold ModerateText
  rw [if_pos h]

/-! ## The lowered text holds no ASCII upper-case letter -/

theorem AppendRune_not_upper (r b : Nat) (hr : isUpperASCII r = false)
    (hb : b ∈ AppendRune r) : isUpperASCII b = false := by
  unfold AppendRune at hb
  simp only [isUpperASCII, Bool.and_eq_false_imp, decide_eq_true_eq, decide_eq_false_iff_not,
    RuneError] at hr ⊢
  split_ifs at hb <;> simp only [List.mem_cons, List.mem_singleton, List.not_mem_nil,
    or_false] at hb
  · subst hb
    exact hr
  all_goals
    intro h1
    omega

theorem unicodeToLower_not_upper (caseTable : Nat → Nat) (hT : TableAvoidsUpper caseTable)
    (r : Nat) : isUpperASCII (unicodeToLower caseTable r) = false := by
  unfold unicodeToLower
  split_ifs with h1 h2
  · simp only [isUpperASCII, Bool.and_eq_true, decide_eq_true_eq] at h2
    simp only [isUpperASCII, Bool.and_eq_false_imp, decide_eq_true_eq, decide_eq_false_iff_not]
    omega
  · simpa using h2
  · exact hT r (by omega)

theorem mapFrom_not_upper (caseTable : Nat → Nat) (hT : TableAvoidsUpper caseTable)
    (s : GoString) (skip b : Nat) (hb : b ∈ mapFrom (unicodeToLower caseTable) skip s) :
    isUpperASCII b = false := by
  induction s generalizing skip with
  | nil => simp [mapFrom] at hb
  | cons s0 t ih =>
    cases skip with
    | succ k =>
      rw [mapFrom] at hb
      exact ih k hb
    | zero =>
      rw [mapFrom, List.mem_append] at hb
      rcases hb with hb | hb
      · exact AppendRune_not_upper _ b (unicodeToLower_not_upper caseTable hT _) hb
      · exact ih _ hb

/-- No byte of `ToLower caseTable s` is an ASCII upper-case letter. -/
theorem ToLower_not_upper (caseTable : Nat → Nat) (hT : TableAvoidsUpper caseTable)
    (s : GoString) (b : Nat) (hb : b ∈ ToLower caseTable s) : isUpperASCII b = false := by
  unfold ToLower at hb
  simp only at hb
  split_ifs at hb with h1 h2
  · have h3 : s.any isUpperASCII = false := by simpa using h2
    rw [List.any_eq_false] at h3
    simpa using h3 b hb
  · rw [List.mem_map] at hb
    obtain ⟨c, _, rfl⟩ := hb
    by_cases hc : isUpperASCII c = true
    · rw [if_pos hc]
      simp only [isUpperASCII, Bool.and_eq_true, decide_eq_true_eq] at hc
      simp only [isUpperASCII, Bool.and_eq_false_imp, decide_eq_true_eq,
        decide_eq_false_iff_not]
      omega
    · rw [if_neg hc]
      simpa using hc
  · exact mapFrom_not_upper caseTable hT s 0 b hb

/-- The identity table (no case mapping above ASCII) avoids the upper-case letters. -/
theorem id_TableAvoidsUpper : TableAvoidsUpper (fun r => r) := by
  intro r hr
  simp only [isUpperASCII, Bool.and_eq_false_imp, decide_eq_true_eq, decide_eq_false_iff_not]
  omega

/-- No listed term occurs exactly when the filter returns false. -/
theorem check_false_iff (caseTable : Nat → Nat) (st : State) (text : GoString) :
    CheckForExplicitContent caseTable st text = false ↔
      ∀ term ∈ st.explicitTerms, ¬ Occurs term (ToLower caseTable text) := by
  rw [← Bool.not_eq_true, check_iff]
  constructor
  · intro h term hm ho
    exact h ⟨term, hm, ho⟩
  · rintro h ⟨term, hm, ho⟩
    exact h term hm ho

theorem addTermRepeated_terms (terms : List GoString) (st : State) :
    (addTermRepeated terms st).explicitTerms = st.explicitTerms ++ terms := by
  unfold addTermRepeated
  induction terms generalizing st with
  | nil => simp
  | cons t rest ih =>
    rw [List.foldl_cons, ih]
    simp [AddExplicitTerm]

theorem runAdds_mem (cs : List AddCall) (st : State) (t : GoString)
    (h : t ∈ st.explicitTerms) : t ∈ (runAdds cs st).explicitTerms := by
  unfold runAdds
  induction cs generalizing st with
  | nil => simpa using h
  | cons c rest ih =>
    rw [List.foldl_cons]
    apply ih
    cases c with
    | term u => exact List.mem_append_left _ h
    | terms us => exact List.mem_append_left _ h

theorem check_of_empty_term (caseTable : Nat → Nat) (st : State) (text : GoString)
    (h : [] ∈ st.explicitTerms) : CheckForExplicitContent caseTable st text = true :=
  (check_iff caseTable st text).mpr ⟨[], h, [], ToLower caseTable text, rfl⟩

/-! ## Lemmas on the remote stage -/

theorem f64Gt_irrefl (a : Float64) : f64Gt a a = false := by
  simp [f64Gt]

theorem analyze_of_error {σ ε : Type} (svc : Comprehend σ ε) (text : GoString) (w : World σ)
    (e : ε) (herr : (svc.DetectSentiment (sentimentInput text) w.remote).1.2 = some e) :
    AnalyzeSentiment svc text w
      = (Outcome.returned ([], 0, some e), (svc.call (sentimentInput text) w).2) := by
  unfold AnalyzeSentiment
  simp only [Comprehend.call, herr]

theorem analyze_of_full {σ ε : Type} (svc : Comprehend σ ε) (text : GoString) (w : World σ)
    (out : DetectSentimentOutput) (sc : SentimentScore) (label : GoString) (score : Float64)
    (hresp : (svc.DetectSentiment (sentimentInput text) w.remote).1 = (some out, none))
    (hlabel : out.Sentiment = some label) (hsc : out.SentimentScore = some sc)
    (hneg : sc.Negative = some score) :
    AnalyzeSentiment svc text w
      = (Outcome.returned (label, score, none), (svc.call (sentimentInput text) w).2) := by
  unfold AnalyzeSentiment
  simp only [Comprehend.call, hresp, hlabel, hsc, hneg]

theorem analyze_of_malformed {σ ε : Type} (svc : Comprehend σ ε) (text : GoString)
    (w : World σ) (res : Option DetectSentimentOutput)
    (hresp : (svc.DetectSentiment (sentimentInput text) w.remote).1 = (res, none))
    (hbad : ∀ out, res = some out → ∀ label, out.Sentiment = some label →
      ∀ sc, out.SentimentScore = some sc → sc.Negative = none) :
    AnalyzeSentiment svc text w = (Outcome.panicked, (svc.call (sentimentInput text) w).2) := by
  unfold AnalyzeSentiment
  simp only [Comprehend.call, hresp]
  cases res with
  | none => rfl
  | some out =>
    simp only
    cases hl : out.Sentiment with
    | none => rfl
    | some label =>
      simp only
      cases hs : out.SentimentScore with
      | none => rfl
      | some sc =>
        simp only [hbad out rfl label hl sc hs]

theorem moderate_of_analysis {σ ε : Type} (caseTable : Nat → Nat) (svc : Comprehend σ ε)
    (st : State) (text : GoString) (w w1 : World σ) (label : GoString) (score : Float64)
    (hno : CheckForExplicitContent caseTable st text = false)
    (ha : AnalyzeSentiment svc text w = (Outcome.returned (label, score, none), w1)) :
    ModerateText caseTable svc st text w
      = (Outcome.returned
          (if label = lit "NEGATIVE" ∧ f64Gt score threshold = true
            then lit "flagged-negative" else lit "approved", none), w1) := by
  unfold ModerateText
  rw [hno, ha]
  simp only [Bool.false_eq_true, if_false]
  split_ifs <;> rfl

theorem moderate_of_analysis_error {σ ε : Type} (caseTable : Nat → Nat) (svc : Comprehend σ ε)
    (st : State) (text : GoString) (w w1 : World σ) (label : GoString) (score : Float64)
    (e : ε) (hno : CheckForExplicitContent caseTable st text = false)
    (ha : AnalyzeSentiment svc text w = (Outcome.returned (label, score, some e), w1)) :
    ModerateText caseTable svc st text w = (Outcome.returned ([], some e), w1) := by
  unfold ModerateText
  rw [hno, ha]
  simp only [Bool.false_eq_true, if_false]

set_option exponentiation.threshold 2100 in
/-- The constant `threshold` is the number `m / 2 ^ 53` with `m = 6305039478318694`
(scaled by `2 ^ 1074` it is `m * 2 ^ 1021`), and it is within half a unit in the last
place of `7 / 10`: `0 ≤ 7 * 2 ^ 53 - 10 * m ≤ 5`. -/
theorem threshold_value :
    f64IsNaN threshold = false
      ∧ f64Scaled threshold = ((6305039478318694 * 2 ^ 1021 : Nat) : Int)
      ∧ 10 * 6305039478318694 ≤ 7 * 2 ^ 53
      ∧ 7 * 2 ^ 53 - 10 * 6305039478318694 ≤ 5 := by
  refine ⟨by decide, ?_, by decide, by decide⟩
  simp [f64Scaled, f64Exp, f64Frac, threshold]

/-- A magnitude exceeds that of the constant exactly when ten times it exceeds
`7 * 2 ^ 53 * P`; here `P` stands for `2 ^ 1021`. -/
theorem mag_gt_iff (e f P : Nat) (hP : 0 < P) (hf : f < 2 ^ 52)
    (hlow : ∀ k, k < 1021 → 2 * 2 ^ k ≤ P)
    (hhigh : ∀ k, 1021 ≤ k → 2 ^ k = 2 ^ (k - 1021) * P) :
    6305039478318694 * P < (if e = 0 then f else (2 ^ 52 + f) * 2 ^ (e - 1))
      ↔ 7 * (2 ^ 53 * P) < 10 * (if e = 0 then f else (2 ^ 52 + f) * 2 ^ (e - 1)) := by
  split_ifs with he
  · have h1 : f * 1 ≤ f * P := Nat.mul_le_mul_left f hP
    have h2 : f * P ≤ 2 ^ 52 * P := Nat.mul_le_mul_right P hf.le
    constructor <;> intro h <;> exfalso <;> omega
  · by_cases hk : e - 1 < 1021
    · have h1 := hlow (e - 1) hk
      have h2 : (2 ^ 52 + f) * (2 * 2 ^ (e - 1)) ≤ (2 ^ 52 + f) * P :=
        Nat.mul_le_mul_left _ h1
      have h3 : (2 ^ 52 + f) * P ≤ 2 ^ 53 * P := Nat.mul_le_mul_right P (by omega)
      have h4 : (2 ^ 52 + f) * (2 * 2 ^ (e - 1)) = 2 * ((2 ^ 52 + f) * 2 ^ (e - 1)) := by
        ring
      constructor <;> intro h <;> exfalso <;> omega
    · rw [hhigh (e - 1) (by omega), ← Nat.mul_assoc]
      generalize (2 ^ 52 + f) * 2 ^ (e - 1 - 1021) = k
      rw [Nat.mul_lt_mul_right hP, ← Nat.mul_assoc, ← Nat.mul_assoc,
        Nat.mul_lt_mul_right hP]
      omega

set_option exponentiation.threshold 2100 in
/-- No binary64 value lies between the constant and `7 / 10`: a value exceeds the
constant exactly when it exceeds `7 / 10`, that is, `7 * 2 ^ 1074 < 10 * f64Scaled x`. -/
theorem scaled_gt_threshold_iff (x : Float64) :
    f64Scaled threshold < f64Scaled x ↔ (7 * 2 ^ 1074 : Int) < 10 * f64Scaled x := by
  rw [threshold_value.2.1]
  have hP : 0 < 2 ^ 1021 := Nat.pow_pos (by decide)
  have hm := mag_gt_iff (f64Exp x) (f64Frac x) (2 ^ 1021) hP (Nat.mod_lt _ (by decide))
    (fun k hk => by
      rw [← pow_succ']
      exact Nat.pow_le_pow_right (by decide) hk)
    (fun k hk => by
      rw [← pow_add, Nat.sub_add_cancel hk])
  have h74 : (7 * 2 ^ 1074 : Int) = ((7 * (2 ^ 53 * 2 ^ 1021) : Nat) : Int) := by
    rw [← pow_add]
    push_cast
  rw [h74]
  unfold f64Scaled
  simp only
  generalize (if f64Exp x = 0 then f64Frac x
    else (2 ^ 52 + f64Frac x) * 2 ^ (f64Exp x - 1)) = mag at hm ⊢
  generalize 2 ^ 1021 = P at hm hP ⊢
  split_ifs with hs
  · constructor <;> intro h <;> exfalso <;> omega
  · constructor
    · intro h
      have h1 := hm.mp (by exact_mod_cast h)
      exact_mod_cast h1
    · intro h
      have h1 := hm.mpr (by exact_mod_cast h)
      exact_mod_cast h1

/-- Comparing with the threshold is comparing values: `score > 0.7` holds exactly when
`score` is a number and its value, `f64Scaled score / 2 ^ 1074`, exceeds `7 / 10`. -/
theorem f64Gt_threshold_iff (score : Float64) :
    f64Gt score threshold = true ↔
      f64IsNaN score = false ∧ (7 * 2 ^ 1074 : Int) < 10 * f64Scaled score := by
  have h : f64IsNaN threshold = false := by decide
  rw [← scaled_gt_threshold_iff]
  simp only [f64Gt, h, Bool.and_eq_true, Bool.not_eq_true', Bool.not_false,
    decide_eq_true_eq, and_true]

/-- The ASCII path of `ToLower` does not consult the case tables. -/
theorem ToLower_of_ascii (t1 t2 : Nat → Nat) (s : GoString)
    (h : s.all (fun c => decide (c < 0x80)) = true) : ToLower t1 s = ToLower t2 s := by
  unfold ToLower
  simp only [h, if_true]

/-! ## The claims -/

/-- C1: if some stored term occurs as a contiguous substring of the lowered text, then
`ModerateText` returns the verdict "flagged-explicit" with a nil error, whatever the
client does, and the world is left as it was: the request log is unchanged, so the
remote adapter was not invoked. -/
theorem C1_match_returns_flagged_explicit {σ ε : Type} (caseTable : Nat → Nat)
    (svc : Comprehend σ ε) (st : State) (text : GoString) (w : World σ)
    (h : ∃ term ∈ st.explicitTerms, Occurs term (ToLower caseTable text)) :
    ModerateText caseTable svc st text w
        = (Outcome.returned (lit "flagged-explicit", none), w)
      ∧ (ModerateText caseTable svc st text w).2.requests = w.requests := by
  have hc := moderate_of_check caseTable svc st text w ((check_iff caseTable st text).mpr h)
  exact ⟨hc, by rw [hc]⟩

/-- Witness of C1: term "badword", text "This is BADWORD here", a client that would
answer NEGATIVE with score 0.9. -/
theorem C1_match_returns_flagged_explicit_witness :
    ModerateText (fun r => r) (fixedSvc (fullResponse (lit "NEGATIVE") 0x3FECCCCCCCCCCCCD))
        { explicitTerms := [lit "badword"] } (lit "This is BADWORD here") World.start
        = (Outcome.returned (lit "flagged-explicit", none), World.start)
      ∧ (ModerateText (fun r => r)
          (fixedSvc (fullResponse (lit "NEGATIVE") 0x3FECCCCCCCCCCCCD))
          { explicitTerms := [lit "badword"] } (lit "This is BADWORD here")
          World.start).2.requests = World.start.requests :=
  C1_match_returns_flagged_explicit (fun r => r)
    (fixedSvc (fullResponse (lit "NEGATIVE") 0x3FECCCCCCCCCCCCD))
    { explicitTerms := [lit "badword"] } (lit "This is BADWORD here") World.start
    ⟨lit "badword", List.mem_singleton.mpr rfl, lit "this is ", lit " here", by decide⟩

/-- C5: `CheckForExplicitContent` returns true exactly when some stored term, compared
as stored, occurs as a contiguous substring of the lowered text; with an empty term
list it returns false for every text, the empty text included. -/
theorem C5_check_iff_some_term_occurs (caseTable : Nat → Nat) (st : State)
    (text : GoString) :
    (CheckForExplicitContent caseTable st text = true ↔
        ∃ term ∈ st.explicitTerms, Occurs term (ToLower caseTable text))
      ∧ CheckForExplicitContent caseTable { explicitTerms := [] } text = false
      ∧ CheckForExplicitContent caseTable { explicitTerms := [] } [] = false :=
  ⟨check_iff caseTable st text, rfl, rfl⟩

/-- C7: after `AddExplicitTerm x` twice the filter gives the same result as after
`AddExplicitTerm x` once, for every text; the list is one element longer. -/
theorem C7_add_twice_same_filter (caseTable : Nat → Nat) (st : State) (x text : GoString) :
    CheckForExplicitContent caseTable (AddExplicitTerm x (AddExplicitTerm x st)) text
        = CheckForExplicitContent caseTable (AddExplicitTerm x st) text
      ∧ (AddExplicitTerm x (AddExplicitTerm x st)).explicitTerms.length
        = (AddExplicitTerm x st).explicitTerms.length + 1 := by
  refine ⟨check_congr caseTable _ _ text ?_, ?_⟩
  · intro t
    simp only [AddExplicitTerm, List.mem_append, List.mem_singleton]
    tauto
  · simp [AddExplicitTerm]

/-- C8: `AddExplicitTerms [t1, ..., tn]` leaves the same state as the calls
`AddExplicitTerm t1`, ..., `AddExplicitTerm tn` in that order, and both term lists are
the old list followed by t1..tn. -/
theorem C8_add_terms_is_repeated_add (st : State) (terms : List GoString) :
    AddExplicitTerms terms st = addTermRepeated terms st
      ∧ (AddExplicitTerms terms st).explicitTerms = st.explicitTerms ++ terms
      ∧ (addTermRepeated terms st).explicitTerms = st.explicitTerms ++ terms := by
  have h := addTermRepeated_terms terms st
  refine ⟨?_, rfl, h⟩
  cases hr : addTermRepeated terms st with
  | mk l =>
    rw [hr] at h
    simp only at h
    rw [h, AddExplicitTerms]

/-- C9: two term lists that are permutations of each other, or that just have the same
members, give the same filter result for every text, and `ModerateText` then has the
same outcome and leaves the same world. -/
theorem C9_insertion_order_irrelevant {σ ε : Type} (caseTable : Nat → Nat)
    (svc : Comprehend σ ε) (s1 s2 : State) (text : GoString) (w : World σ)
    (h : s1.explicitTerms.Perm s2.explicitTerms
      ∨ ∀ t, t ∈ s1.explicitTerms ↔ t ∈ s2.explicitTerms) :
    CheckForExplicitContent caseTable s1 text = CheckForExplicitContent caseTable s2 text
      ∧ ModerateText caseTable svc s1 text w = ModerateText caseTable svc s2 text w := by
  have hm : ∀ t, t ∈ s1.explicitTerms ↔ t ∈ s2.explicitTerms := by
    rcases h with h | h
    · exact fun t => h.mem_iff
    · exact h
  have hc := check_congr caseTable s1 s2 text hm
  exact ⟨hc, moderate_congr caseTable svc s1 s2 text w hc⟩

/-- Witness of C9: the lists ["bad", "ugly"] and ["ugly", "bad"]. -/
theorem C9_insertion_order_irrelevant_witness :
    CheckForExplicitContent (fun r => r) { explicitTerms := [lit "bad", lit "ugly"] }
        (lit "so UGLY")
        = CheckForExplicitContent (fun r => r) { explicitTerms := [lit "ugly", lit "bad"] }
          (lit "so UGLY")
      ∧ ModerateText (fun r => r) (fixedSvc (fullResponse (lit "POSITIVE") 0))
          { explicitTerms := [lit "bad", lit "ugly"] } (lit "so UGLY") World.start
        = ModerateText (fun r => r) (fixedSvc (fullResponse (lit "POSITIVE") 0))
          { explicitTerms := [lit "ugly", lit "bad"] } (lit "so UGLY") World.start :=
  C9_insertion_order_irrelevant (fun r => r) (fixedSvc (fullResponse (lit "POSITIVE") 0))
    { explicitTerms := [lit "bad", lit "ugly"] } { explicitTerms := [lit "ugly", lit "bad"] }
    (lit "so UGLY") World.start (Or.inl (List.Perm.swap _ _ _))

/-- C10: once the empty string has been added, by `AddExplicitTerm ""` or as an element
of the argument of `AddExplicitTerms`, then after any further add calls the filter
returns true for every text and `ModerateText` returns "flagged-explicit" for every
text and every client, without touching the world. -/
theorem C10_empty_term_flags_everything {σ ε : Type} (caseTable : Nat → Nat)
    (svc : Comprehend σ ε) (st0 : State) (first : AddCall) (later : List AddCall)
    (text : GoString) (w : World σ)
    (h : first = AddCall.term [] ∨ ∃ ts, [] ∈ ts ∧ first = AddCall.terms ts) :
    CheckForExplicitContent caseTable (runAdds later (first.run st0)) text = true
      ∧ CheckForExplicitContent caseTable (runAdds later (first.run st0)) [] = true
      ∧ ModerateText caseTable svc (runAdds later (first.run st0)) text w
        = (Outcome.returned (lit "flagged-explicit", none), w) := by
  have h1 : [] ∈ (first.run st0).explicitTerms := by
    rcases h with rfl | ⟨ts, hts, rfl⟩
    · exact List.mem_append_right _ (List.mem_singleton.mpr rfl)
    · exact List.mem_append_right _ hts
  have h2 := runAdds_mem later _ [] h1
  exact ⟨check_of_empty_term caseTable _ text h2, check_of_empty_term caseTable _ [] h2,
    moderate_of_check caseTable svc _ text w (check_of_empty_term caseTable _ text h2)⟩

/-- Witness of C10: "" added after "bad", then "x" and ["y", "z"] added; text "hello". -/
theorem C10_empty_term_flags_everything_witness :
    CheckForExplicitContent (fun r => r)
        (runAdds [AddCall.term (lit "x"), AddCall.terms [lit "y", lit "z"]]
          ((AddCall.term []).run { explicitTerms := [lit "bad"] })) (lit "hello") = true
      ∧ CheckForExplicitContent (fun r => r)
        (runAdds [AddCall.term (lit "x"), AddCall.terms [lit "y", lit "z"]]
          ((AddCall.term []).run { explicitTerms := [lit "bad"] })) [] = true
      ∧ ModerateText (fun r => r) (fixedSvc (fullResponse (lit "POSITIVE") 0))
        (runAdds [AddCall.term (lit "x"), AddCall.terms [lit "y", lit "z"]]
          ((AddCall.term []).run { explicitTerms := [lit "bad"] })) (lit "hello") World.start
        = (Outcome.returned (lit "flagged-explicit", none), World.start) :=
  C10_empty_term_flags_everything (fun r => r) (fixedSvc (fullResponse (lit "POSITIVE") 0))
    { explicitTerms := [lit "bad"] } (AddCall.term [])
    [AddCall.term (lit "x"), AddCall.terms [lit "y", lit "z"]] (lit "hello") World.start
    (Or.inl rfl)

/-- C2: when no stored term occurs in the lowered text and the remote call succeeds with
label `label` and negative score `score`, `ModerateText` returns "flagged-negative"
exactly when the label is "NEGATIVE" and the score is a number whose value,
`f64Scaled score / 2 ^ 1074`, is strictly greater than `7 / 10`; otherwise it returns
"approved". In particular the score equal to the float64 constant 0.7 gives "approved",
and so does every label other than "NEGATIVE", whatever the score. -/
theorem C2_threshold_rule {σ ε : Type} (caseTable : Nat → Nat) (svc : Comprehend σ ε)
    (st : State) (text : GoString) (w : World σ) (out : DetectSentimentOutput)
    (sc : SentimentScore) (label : GoString) (score : Float64)
    (hno : ∀ term ∈ st.explicitTerms, ¬ Occurs term (ToLower caseTable text))
    (hresp : (svc.DetectSentiment (sentimentInput text) w.remote).1 = (some out, none))
    (hlabel : out.Sentiment = some label) (hsc : out.SentimentScore = some sc)
    (hneg : sc.Negative = some score) :
    ((ModerateText caseTable svc st text w).1 = Outcome.returned (lit "flagged-negative", none)
        ↔ label = lit "NEGATIVE" ∧ f64IsNaN score = false
          ∧ (7 * 2 ^ 1074 : Int) < 10 * f64Scaled score)
      ∧ ((ModerateText caseTable svc st text w).1 = Outcome.returned (lit "approved", none)
        ↔ ¬ (label = lit "NEGATIVE" ∧ f64IsNaN score = false
          ∧ (7 * 2 ^ 1074 : Int) < 10 * f64Scaled score))
      ∧ (score = threshold →
        (ModerateText caseTable svc st text w).1 = Outcome.returned (lit "approved", none))
      ∧ (label ≠ lit "NEGATIVE" →
        (ModerateText caseTable svc st text w).1
          = Outcome.returned (lit "approved", none)) := by
  have hm := moderate_of_analysis caseTable svc st text w _ label score
    ((check_false_iff caseTable st text).mpr hno)
    (analyze_of_full svc text w out sc label score hresp hlabel hsc hneg)
  have hne : lit "flagged-negative" ≠ lit "approved" := by decide
  rw [hm]
  simp only [← f64Gt_threshold_iff]
  by_cases hc : label = lit "NEGATIVE" ∧ f64Gt score threshold = true
  · rw [if_pos hc]
    refine ⟨⟨fun _ => hc, fun _ => rfl⟩, ⟨fun h => ?_, fun h => absurd hc h⟩, ?_, ?_⟩
    · simp only [Outcome.returned.injEq, Prod.mk.injEq, and_true] at h
      exact absurd h hne
    · intro h
      rw [h, f64Gt_irrefl] at hc
      exact absurd hc.2 (by decide)
    · intro h
      exact absurd hc.1 h
  · rw [if_neg hc]
    refine ⟨⟨fun h => ?_, fun h => absurd h hc⟩, ⟨fun _ => hc, fun _ => rfl⟩,
      fun _ => rfl, fun _ => rfl⟩
    simp only [Outcome.returned.injEq, Prod.mk.injEq, and_true] at h
    exact absurd h.symm hne

set_option exponentiation.threshold 2100 in
/-- Witness of C2: label NEGATIVE with score 0.70000001 is flagged. -/
theorem C2_threshold_rule_witness :
    (ModerateText (fun r => r) (fixedSvc (fullResponse (lit "NEGATIVE") 0x3FE666666BC4CA1F))
        { explicitTerms := [lit "badword"] } (lit "I hate this") World.start).1
      = Outcome.returned (lit "flagged-negative", none) :=
  (C2_threshold_rule (fun r => r)
    (fixedSvc (fullResponse (lit "NEGATIVE") 0x3FE666666BC4CA1F))
    { explicitTerms := [lit "badword"] } (lit "I hate this") World.start
    _ _ (lit "NEGATIVE") 0x3FE666666BC4CA1F
    ((check_false_iff _ _ _).mp (by decide)) rfl rfl rfl rfl).1.mpr
    ⟨rfl, by decide, by simp [f64Scaled, f64Exp, f64Frac, threshold]⟩

/-- C3: when no stored term occurs in the lowered text and the remote call fails with
error `e`, `AnalyzeSentiment` returns `("", 0, e)` and `ModerateText` returns the empty
verdict string together with that same `e`; the empty string is none of the three
verdicts. -/
theorem C3_remote_error_propagates {σ ε : Type} (caseTable : Nat → Nat)
    (svc : Comprehend σ ε) (st : State) (text : GoString) (w : World σ) (e : ε)
    (hno : ∀ term ∈ st.explicitTerms, ¬ Occurs term (ToLower caseTable text))
    (herr : (svc.DetectSentiment (sentimentInput text) w.remote).1.2 = some e) :
    (ModerateText caseTable svc st text w).1 = Outcome.returned ([], some e)
      ∧ (AnalyzeSentiment svc text w).1 = Outcome.returned ([], 0, some e)
      ∧ ([] : GoString) ≠ lit "approved"
      ∧ ([] : GoString) ≠ lit "flagged-negative"
      ∧ ([] : GoString) ≠ lit "flagged-explicit" := by
  have ha := analyze_of_error svc text w e herr
  have hm := moderate_of_analysis_error caseTable svc st text w _ [] 0 e
    ((check_false_iff caseTable st text).mpr hno) ha
  rw [hm, ha]
  exact ⟨rfl, rfl, by decide, by decide, by decide⟩

/-- Witness of C3: the endpoint answers with the error "timeout". -/
theorem C3_remote_error_propagates_witness :
    (ModerateText (fun r => r) (fixedSvc (none, some (lit "timeout")))
        { explicitTerms := [lit "badword"] } (lit "hello") World.start).1
      = Outcome.returned ([], some (lit "timeout")) :=
  (C3_remote_error_propagates (fun r => r) (fixedSvc (none, some (lit "timeout")))
    { explicitTerms := [lit "badword"] } (lit "hello") World.start (lit "timeout")
    ((check_false_iff _ _ _).mp (by decide)) rfl).1

/-- C4, as stated, fails: for a response without error whose sentiment label is nil,
`AnalyzeSentiment` panics, and so returns no error value to its caller. -/
theorem C4_counterexample :
    (AnalyzeSentiment
        (fixedSvc (some { Sentiment := none,
                          SentimentScore := some { Mixed := some 0, Negative := some 0,
                                                   Neutral := some 0, Positive := some 0 } },
                   none))
        (lit "hello") World.start).1 = Outcome.panicked
      ∧ ¬ ∃ label score e,
        (AnalyzeSentiment
          (fixedSvc (some { Sentiment := none,
                            SentimentScore := some { Mixed := some 0, Negative := some 0,
                                                     Neutral := some 0, Positive := some 0 } },
                     none))
          (lit "hello") World.start).1 = Outcome.returned (label, score, some e) := by
  refine ⟨rfl, ?_⟩
  rintro ⟨label, score, e, h⟩
  exact Outcome.noConfusion h

/-- C4 amended: for a response returned without error in which the result, the sentiment
label, the score breakdown or the negative score is nil, `AnalyzeSentiment` returns
nothing to its caller, neither an error value nor a (label, score) pair: the nil
dereference panics, after the one request has been sent. -/
theorem C4_malformed_response_panics {σ ε : Type} (svc : Comprehend σ ε) (text : GoString)
    (w : World σ) (res : Option DetectSentimentOutput)
    (hresp : (svc.DetectSentiment (sentimentInput text) w.remote).1 = (res, none))
    (hbad : res = none ∨ ∃ out, res = some out ∧
      (out.Sentiment = none ∨ out.SentimentScore = none
        ∨ ∃ sc, out.SentimentScore = some sc ∧ sc.Negative = none)) :
    (AnalyzeSentiment svc text w).1 = Outcome.panicked
      ∧ (∀ v, (AnalyzeSentiment svc text w).1 ≠ Outcome.returned v)
      ∧ (AnalyzeSentiment svc text w).2.requests = w.requests ++ [sentimentInput text] := by
  have ha := analyze_of_malformed svc text w res hresp (by
    intro out ho label hl sc hs
    rcases hbad with h | ⟨out1, h1, h⟩
    · rw [h] at ho
      exact Option.noConfusion ho
    · rw [ho] at h1
      cases h1
      rcases h with h | h | ⟨sc1, h2, h3⟩
      · rw [h] at hl
        exact Option.noConfusion hl
      · rw [h] at hs
        exact Option.noConfusion hs
      · rw [hs] at h2
        cases h2
        exact h3)
  rw [ha]
  exact ⟨rfl, fun v h => Outcome.noConfusion h, rfl⟩

/-- Witness of C4 amended: the score breakdown is present but its negative score is nil. -/
theorem C4_malformed_response_panics_witness :
    (AnalyzeSentiment
        (fixedSvc (some { Sentiment := some (lit "NEGATIVE"),
                          SentimentScore := some { Mixed := some 0, Negative := none,
                                                   Neutral := some 0, Positive := some 0 } },
                   none))
        (lit "hello") World.start).1 = Outcome.panicked :=
  (C4_malformed_response_panics
    (fixedSvc (some { Sentiment := some (lit "NEGATIVE"),
                      SentimentScore := some { Mixed := some 0, Negative := none,
                                               Neutral := some 0, Positive := some 0 } },
               none))
    (lit "hello") World.start _ rfl
    (Or.inr ⟨_, rfl, Or.inr (Or.inr ⟨_, rfl, rfl⟩)⟩)).1

/-- C6: the input is lowered and the stored term is not. With a single stored term that
holds an ASCII upper-case letter the filter returns false for every text, while the
stored term "badword" matches the text "This is BADWORD here". -/
theorem C6_case_asymmetry (caseTable : Nat → Nat) (hT : TableAvoidsUpper caseTable)
    (t text : GoString) (hu : ∃ b ∈ t, isUpperASCII b = true) :
    CheckForExplicitContent caseTable { explicitTerms := [t] } text = false
      ∧ CheckForExplicitContent caseTable { explicitTerms := [lit "badword"] }
        (lit "This is BADWORD here") = true := by
  refine ⟨?_, ?_⟩
  swap
  · unfold CheckForExplicitContent
    rw [ToLower_of_ascii caseTable (fun r => r) _ (by decide)]
    decide
  rw [check_false_iff]
  intro term hterm hocc
  rw [List.mem_singleton] at hterm
  subst hterm
  obtain ⟨b, hb, hup⟩ := hu
  obtain ⟨pre, post, hpp⟩ := hocc
  have hmem : b ∈ ToLower caseTable text := by
    rw [hpp]
    exact List.mem_append_left _ (List.mem_append_right _ hb)
  rw [ToLower_not_upper caseTable hT text b hmem] at hup
  exact absurd hup (by decide)

/-- Witness of C6: the stored term "BadWord" does not match the text "this is badword". -/
theorem C6_case_asymmetry_witness :
    CheckForExplicitContent (fun r => r) { explicitTerms := [lit "BadWord"] }
        (lit "this is badword") = false
      ∧ CheckForExplicitContent (fun r => r) { explicitTerms := [lit "badword"] }
        (lit "This is BADWORD here") = true :=
  C6_case_asymmetry (fun r => r) id_TableAvoidsUpper (lit "BadWord") (lit "this is badword")
    ⟨66, by decide, by decide⟩

end TextModeration
